import Mathlib

/-!
Shallow embedding of the exclusion video filter (`src/gstexclusion.c`).

The interesting code is three functions:
 * `gate_int` — clamp a `gint` into `[min, max]`;
 * `transform` — per-pixel exclusion formula, looping over `video_area`
   pixels read through `src` and written through `dest`;
 * `gst_exclusion_chain` — copies the inbound buffer, runs `transform`
   from the input buffer into the copy, and pushes the copy downstream.

Machine integers: the channel variables `red`, `green`, `blue` and the
pixel word are `guint32`; `factor` and the loop counter are `gint`.
Mixed `gint`/`guint32` expressions are computed in unsigned 32-bit
wraparound arithmetic (the usual C arithmetic conversions), modelled as
`Nat` with explicit `% 2^32`; the `guint32 → gint` conversion at the
`gate_int` call sites is the two's-complement reinterpretation
`toSigned32 : Nat → Int`.
-/

namespace Gst

/-- `2^32`, the modulus of `guint32` arithmetic. -/
def U32 : Nat := 4294967296

/-- `2^31`, the signed/unsigned boundary for 32-bit words. -/
def I32 : Nat := 2147483648

/-- C subtraction `a - b` on `guint32` operands (wraparound mod `2^32`). -/
def usub32 (a b : Nat) : Nat := (a % U32 + (U32 - b % U32)) % U32

/-- C multiplication `a * b` on `guint32` operands (wraparound mod `2^32`). -/
def umul32 (a b : Nat) : Nat := a * b % U32

/-- C addition `a + b` on `guint32` operands (wraparound mod `2^32`). -/
def uadd32 (a b : Nat) : Nat := (a + b) % U32

/-- C unsigned division `a / b` on `guint32` operands (truncating). -/
def udiv32 (a b : Nat) : Nat := a / b

/-- Reinterpret a `guint32` bit pattern as a (two's-complement) `gint`,
the implementation-defined conversion performed when a `guint32` channel
value is passed to `gate_int (gint, gint, gint)`. -/
def toSigned32 (n : Nat) : Int :=
  if n % U32 < I32 then (n % U32 : Int) else (n % U32 : Int) - (U32 : Int)

/-- `gate_int` from `gstexclusion.c` (lines 278–287): keep `value`
inside `[min, max]`. -/
def gate_int (value min max : Int) : Int :=
  if value < min then min
  else if value > max then max
  else value

/-- The constant `gint factor = 175` of `transform`. -/
def factor : Nat := 175

/-- The red-channel update of `transform` (lines 303–305), computed in
`guint32` arithmetic:
`red = factor - (((factor - red) * (factor - red) / factor) + ((green * red) / factor))`.
Note the cross-mix with `green`. -/
def red_u32 (red green : Nat) : Nat :=
  usub32 factor
    (uadd32 (udiv32 (umul32 (usub32 factor red) (usub32 factor red)) factor)
      (udiv32 (umul32 green red) factor))

/-- The green-channel update of `transform` (lines 306–308):
`green = factor - (((factor - green) * (factor - green) / factor) + ((green * green) / factor))`. -/
def green_u32 (green : Nat) : Nat :=
  usub32 factor
    (uadd32 (udiv32 (umul32 (usub32 factor green) (usub32 factor green)) factor)
      (udiv32 (umul32 green green) factor))

/-- The blue-channel update of `transform` (lines 309–311):
`blue = factor - (((factor - blue) * (factor - blue) / factor) + ((blue * blue) / factor))`. -/
def blue_u32 (blue : Nat) : Nat :=
  usub32 factor
    (uadd32 (udiv32 (umul32 (usub32 factor blue) (usub32 factor blue)) factor)
      (udiv32 (umul32 blue blue) factor))

/-- Gate a `guint32` channel value: convert to `gint`, apply
`gate_int (value, 0, 255)`, store back into the `guint32` variable
(lines 313–315). The result is in `[0,255]`, so the store is exact. -/
def gate_channel (c : Nat) : Nat := (gate_int (toSigned32 c) 0 255).toNat

/-- Red channel extraction `(in >> 16) & 0xff` (line 299). -/
def redOf (p : Nat) : Nat := (p >>> 16) &&& 255

/-- Green channel extraction `(in >> 8) & 0xff` (line 300). -/
def greenOf (p : Nat) : Nat := (p >>> 8) &&& 255

/-- Blue channel extraction `in & 0xff` (line 301). -/
def blueOf (p : Nat) : Nat := p &&& 255

/-- One iteration of the loop body of `transform` (lines 297–317):
unpack the channels, run the three channel formulas, gate each result,
and repack as `(red << 16) | (green << 8) | blue`. -/
def transform_pixel (inp : Nat) : Nat :=
  (gate_channel (red_u32 (redOf inp) (greenOf inp)) <<< 16) |||
  (gate_channel (green_u32 (greenOf inp)) <<< 8) |||
  gate_channel (blue_u32 (blueOf inp))

/-- Modelled from the spec (§4.1): the red-channel reference formula
`red' = factor - (((factor-red)^2 / factor) + (green*red / factor))`
in exact integer arithmetic, division truncating toward zero. -/
def ref_red (red green : Int) : Int :=
  175 - (((175 - red) * (175 - red)).tdiv 175 + (green * red).tdiv 175)

/-- Modelled from the spec (§4.1): the green-channel reference formula
`green' = factor - (((factor-green)^2 / factor) + (green*green / factor))`. -/
def ref_green (green : Int) : Int :=
  175 - (((175 - green) * (175 - green)).tdiv 175 + (green * green).tdiv 175)

/-- Modelled from the spec (§4.1): the blue-channel reference formula
`blue' = factor - (((factor-blue)^2 / factor) + (blue*blue / factor))`. -/
def ref_blue (blue : Int) : Int :=
  175 - (((175 - blue) * (175 - blue)).tdiv 175 + (blue * blue).tdiv 175)

/-- Modelled from the spec (§4.1): clamp into `[0,255]` — values below 0
clamp to 0, above 255 clamp to 255. -/
def clamp255 (v : Int) : Int :=
  if v < 0 then 0 else if v > 255 then 255 else v

/-- `gate_int` with bounds `0, 255` is exactly the spec's clamp. -/
theorem gate_int_eq_clamp255 (v : Int) : gate_int v 0 255 = clamp255 v := rfl

/-- The green and blue updates are the red update applied to a pair of
equal channels (the formulas coincide syntactically when `red := green`
resp. `red := blue`, `green := blue`). -/
theorem green_u32_eq_red_u32 (g : Nat) : green_u32 g = red_u32 g g := rfl

/-- Same coincidence for the blue channel. -/
theorem blue_u32_eq_red_u32 (b : Nat) : blue_u32 b = red_u32 b b := rfl

/-- And for the exact reference formulas. -/
theorem ref_green_eq_ref_red (g : Int) : ref_green g = ref_red g g := rfl

/-- And for blue. -/
theorem ref_blue_eq_ref_red (b : Int) : ref_blue b = ref_red b b := rfl

/-- The squared term of the channel formulas: for a channel value
`c ≤ 255`, the `guint32` computation `(factor - c) * (factor - c) / factor`
(which wraps around when `c > 175`) agrees with the exact integer
`((175 - c)²) tdiv 175`, and is at most `175`. Checked exhaustively on
the 256 byte values. -/
theorem sq_term_eq : ∀ c < 256,
    (udiv32 (umul32 (usub32 factor c) (usub32 factor c)) factor : Int)
        = ((175 - (c : Int)) * (175 - (c : Int))).tdiv 175 ∧
      udiv32 (umul32 (usub32 factor c) (usub32 factor c)) factor ≤ 175 := by
  set_option maxRecDepth 4096 in decide

/-- Reinterpreting `factor - s` (computed with `guint32` wraparound) as a
signed 32-bit value recovers the exact integer `175 - s` for every sum
`s` the channel formulas can produce (`s ≤ 175 + 371 = 546`). Checked
exhaustively. -/
theorem toSigned32_usub32_factor :
    ∀ s < 547, toSigned32 (usub32 factor s) = 175 - (s : Int) := by
  set_option maxRecDepth 8192 in decide

/-- The mixed term `green * red / factor` in `guint32` arithmetic agrees
with the exact integer quotient and is at most `371`. -/
theorem mix_term_eq (g r : Nat) (hg : g < 256) (hr : r < 256) :
    (udiv32 (umul32 g r) factor : Int) = ((g : Int) * (r : Int)).tdiv 175 ∧
      udiv32 (umul32 g r) factor ≤ 371 := by
  have h1 : g * r < U32 := by
    have : g * r ≤ 255 * 255 := Nat.mul_le_mul (by omega) (by omega)
    simp only [U32]; omega
  have h2 : umul32 g r = g * r := by
    simp only [umul32]; exact Nat.mod_eq_of_lt h1
  constructor
  · simp only [udiv32, h2, factor]
    rw [Int.ofNat_tdiv]
    push_cast
    rfl
  · simp only [udiv32, h2, factor]
    have h3 : g * r / 175 ≤ 255 * 255 / 175 :=
      Nat.div_le_div_right (Nat.mul_le_mul (by omega) (by omega))
    omega

/-- Central bridging lemma: on byte inputs, the `guint32`-wraparound red
formula of the code, reinterpreted as signed and gated, equals the
exact-arithmetic reference formula clamped to `[0,255]`; moreover the
signed pre-clamp value never exceeds `factor = 175`. -/
theorem red_bridge (r g : Nat) (hr : r < 256) (hg : g < 256) :
    gate_int (toSigned32 (red_u32 r g)) 0 255 = clamp255 (ref_red r g) ∧
      toSigned32 (red_u32 r g) = ref_red r g ∧
      toSigned32 (red_u32 r g) ≤ 175 := by
  obtain ⟨hA, hAle⟩ := sq_term_eq r hr
  obtain ⟨hB, hBle⟩ := mix_term_eq g r hg hr
  have hAB : udiv32 (umul32 (usub32 factor r) (usub32 factor r)) factor
      + udiv32 (umul32 g r) factor < 547 := by omega
  have huadd : uadd32 (udiv32 (umul32 (usub32 factor r) (usub32 factor r)) factor)
      (udiv32 (umul32 g r) factor)
      = udiv32 (umul32 (usub32 factor r) (usub32 factor r)) factor
        + udiv32 (umul32 g r) factor := by
    simp only [uadd32]
    exact Nat.mod_eq_of_lt (by simp only [U32]; omega)
  have hred : red_u32 r g = usub32 factor
      (udiv32 (umul32 (usub32 factor r) (usub32 factor r)) factor
        + udiv32 (umul32 g r) factor) := by
    rw [red_u32, huadd]
  have hsig : toSigned32 (red_u32 r g) = ref_red r g := by
    rw [hred, toSigned32_usub32_factor _ hAB, ref_red]
    push_cast [hA, hB]
    ring
  refine ⟨?_, hsig, ?_⟩
  · rw [hsig, gate_int_eq_clamp255]
  · rw [hsig, ref_red, ← hA, ← hB]
    omega

/-! ## Frame-level model

`transform (guint32 *src, guint32 *dest, gint video_area)` walks the two
pointers in lockstep for `video_area` iterations. `gst_exclusion_chain`
calls it with `src` pointing at the inbound buffer and `dest` at a fresh
copy of it (`gst_buffer_copy`), two disjoint allocations. We model the
two buffers as one address space `mem = in_buf ++ out_buf` (the input at
offsets `[0, n)`, the copy at `[n, 2n)`), so that "the loop never writes
the input buffer" is a provable fact rather than a modelling assumption.
An out-of-range read (undefined behaviour in C) returns 0 in the model;
an out-of-range write is a no-op. -/

/-- The loop of `transform` (lines 296–318): `k` remaining iterations,
reading at offset `s` and writing `transform_pixel` of the read value at
offset `d`, both advancing by one pixel per iteration. -/
def transformGo : List Nat → Nat → Nat → Nat → List Nat
  | mem, _, _, 0 => mem
  | mem, s, d, k + 1 =>
      transformGo (mem.set d (transform_pixel (mem.getD s 0))) (s + 1) (d + 1) k

/-- `transform` (lines 290–319): run the loop `video_area` times (a
`gint` bound; the loop body runs zero times when `video_area ≤ 0`). -/
def transform (mem : List Nat) (src dest : Nat) (video_area : Int) : List Nat :=
  transformGo mem src dest video_area.toNat

/-- The mutable state of the `Gstexclusion` element that the core
reads: the `silent` property and the negotiated `width`/`height`. -/
structure Gstexclusion where
  silent : Bool
  width : Int
  height : Int

/-- The element state right after `gst_exclusion_init`: `silent` is set
to `FALSE`; `width` and `height` are never assigned, so they hold the
zero-initialised value GObject instance allocation gives them. -/
def gst_exclusion_initState : Gstexclusion := ⟨false, 0, 0⟩

/-- `gst_exclusion_set_caps` (lines 222–239): store the negotiated
`width` and `height` into the filter state. -/
def gst_exclusion_set_caps (filter : Gstexclusion) (w h : Int) : Gstexclusion :=
  ⟨filter.silent, w, h⟩

/-- The buffer part of `gst_exclusion_chain` (lines 242–260): copy the
inbound buffer (`gst_buffer_copy`), compute `video_size = width * height`
from the filter state, run `transform` from the input region into the
copy, and return the (input region, output region) pair of the memory
afterwards. -/
def chain_mem (filter : Gstexclusion) (in_buf : List Nat) : List Nat × List Nat :=
  let mem := in_buf ++ in_buf
  let video_size := filter.width * filter.height
  let mem2 := transform mem 0 in_buf.length video_size
  (mem2.take in_buf.length, mem2.drop in_buf.length)

/-- `gst_exclusion_chain` as seen by the caller: the function body is a
straight line — copy, transform, push — with no error branch of its own
(in particular no unconfigured check), so the model always returns the
pushed output buffer wrapped in `Except.ok`; the `Except` layer records
that the C code has no failure outcome to surface. -/
def gst_exclusion_chain (filter : Gstexclusion) (in_buf : List Nat) :
    Except String (List Nat) :=
  Except.ok (chain_mem filter in_buf).2

/-- The loop preserves the length of the memory. -/
theorem transformGo_length (k : Nat) :
    ∀ (mem : List Nat) (s d : Nat), (transformGo mem s d k).length = mem.length := by
  induction k with
  | zero => intro mem s d; rfl
  | succ k ih =>
      intro mem s d
      rw [transformGo, ih, List.length_set]

/-- Main loop characterisation: starting from memory `src ++ out` with
read cursor `s` and write cursor `src.length + s`, running `k` more
iterations (all in range) rewrites exactly the slice `[s, s+k)` of the
output region with `transform_pixel` of the corresponding input pixels,
and touches nothing else — in particular the input region `src` survives
unchanged. -/
theorem transformGo_spec (k : Nat) :
    ∀ (s : Nat) (src out : List Nat), out.length = src.length → s + k ≤ src.length →
      transformGo (src ++ out) s (src.length + s) k =
        src ++ out.take s ++ ((src.drop s).take k).map transform_pixel
          ++ out.drop (s + k) := by
  induction k with
  | zero =>
      intro s src out hlen hsk
      simp [transformGo]
  | succ k ih =>
      intro s src out hlen hsk
      have hs : s < src.length := by omega
      have hso : s < out.length := by omega
      rw [transformGo]
      have hread : (src ++ out).getD s 0 = src.getD s 0 := by
        simp only [List.getD_eq_getElem?_getD]
        rw [List.getElem?_append_left hs]
      have hwrite : (src ++ out).set (src.length + s) (transform_pixel ((src ++ out).getD s 0))
          = src ++ out.set s (transform_pixel (src.getD s 0)) := by
        rw [hread, List.set_append_right _ _ (by omega), Nat.add_sub_cancel_left]
      rw [hwrite]
      have harith : src.length + s + 1 = src.length + (s + 1) := by omega
      rw [harith, ih (s + 1) src (out.set s (transform_pixel (src.getD s 0)))
        (by simpa using hlen) (by omega)]
      have hset : out.set s (transform_pixel (src.getD s 0))
          = out.take s ++ transform_pixel (src.getD s 0) :: out.drop (s + 1) := by
        rw [List.set_eq_take_append_cons_drop, if_pos hso]
      rw [hset]
      have h1 : (out.take s).length = s := by
        rw [List.length_take]; omega
      have htake : (out.take s ++ transform_pixel (src.getD s 0) :: out.drop (s + 1)).take (s + 1)
          = out.take s ++ [transform_pixel (src.getD s 0)] := by
        rw [List.take_append_eq_append_take,
          List.take_of_length_le (by rw [h1]; omega), h1]
        congr 1
        simp
      have hdrop : (out.take s ++ transform_pixel (src.getD s 0) :: out.drop (s + 1)).drop (s + 1 + k)
          = out.drop (s + (k + 1)) := by
        rw [List.drop_append_eq_append_drop,
          List.drop_eq_nil_of_le (by rw [h1]; omega), h1]
        simp only [List.nil_append]
        have h2 : s + 1 + k - s = k + 1 := by omega
        rw [h2, List.drop_succ_cons, List.drop_drop]
        congr 1
        omega
      rw [htake, hdrop]
      have hmap : (src.drop s).take (k + 1)
          = src.getD s 0 :: (src.drop (s + 1)).take k := by
        rw [List.drop_eq_getElem_cons hs, List.take_succ_cons]
        congr 1
        simp [List.getD_eq_getElem?_getD, List.getElem?_eq_getElem hs]
      rw [hmap]
      simp [List.append_assoc]

/-- The full-frame corollary: with `video_area` equal to the number of
pixels, the loop turns the output region into the pointwise
`transform_pixel` image of the input region and leaves the input region
untouched. -/
theorem transformGo_full (src out : List Nat) (h : out.length = src.length) :
    transformGo (src ++ out) 0 src.length src.length
      = src ++ src.map transform_pixel := by
  have hspec := transformGo_spec src.length 0 src out h (by omega)
  simp only [Nat.add_zero, Nat.zero_add] at hspec
  rw [hspec, List.take_zero, List.drop_zero, List.take_length, ← h, List.drop_length]
  simp

/-- Zero iterations leave the memory untouched. -/
theorem transformGo_zero (mem : List Nat) (s d : Nat) : transformGo mem s d 0 = mem := rfl

/-- When the negotiated area matches the buffer's pixel count,
`gst_exclusion_chain`'s memory ends with the input region intact and the
output region equal to the pointwise `transform_pixel` image. -/
theorem chain_mem_eq (filter : Gstexclusion) (in_buf : List Nat)
    (h : filter.width * filter.height = (in_buf.length : Int)) :
    chain_mem filter in_buf = (in_buf, in_buf.map transform_pixel) := by
  have hto : (filter.width * filter.height).toNat = in_buf.length := by
    rw [h]; simp
  simp only [chain_mem, transform, hto]
  rw [transformGo_full in_buf in_buf rfl, List.take_left, List.drop_left]

/-- `gate_int _ 0 255` always lands in `[0,255]`, so the stored channel
is at most 255. -/
theorem gate_channel_le255 (c : Nat) : gate_channel c ≤ 255 := by
  unfold gate_channel gate_int
  split
  · omega
  · split
    · omega
    · omega

/-- If the signed pre-clamp value is at most 175, so is the gated
channel. -/
theorem gate_channel_le_of (c : Nat) (h : toSigned32 c ≤ 175) : gate_channel c ≤ 175 := by
  unfold gate_channel gate_int
  split
  · omega
  · split
    · omega
    · omega

/-- Every `transform_pixel` output has a zero top byte: the three gated
channels fit in a byte each and the repacking uses bits 0–23 only. -/
theorem transform_pixel_lt (p : Nat) : transform_pixel p < 2 ^ 24 := by
  have h16 : (2 : Nat) ^ 16 = 65536 := by norm_num
  have h8 : (2 : Nat) ^ 8 = 256 := by norm_num
  have h24 : (2 : Nat) ^ 24 = 16777216 := by norm_num
  have b1 := gate_channel_le255 (red_u32 (redOf p) (greenOf p))
  have b2 := gate_channel_le255 (green_u32 (greenOf p))
  have b3 := gate_channel_le255 (blue_u32 (blueOf p))
  unfold transform_pixel
  apply Nat.or_lt_two_pow
  · apply Nat.or_lt_two_pow
    · rw [Nat.shiftLeft_eq, h16, h24]; omega
    · rw [Nat.shiftLeft_eq, h8, h24]; omega
  · omega

/-- Channel extractions always produce a byte. -/
theorem redOf_lt (p : Nat) : redOf p < 256 := Nat.lt_succ_of_le Nat.and_le_right

/-- Green extraction produces a byte. -/
theorem greenOf_lt (p : Nat) : greenOf p < 256 := Nat.lt_succ_of_le Nat.and_le_right

/-- Blue extraction produces a byte. -/
theorem blueOf_lt (p : Nat) : blueOf p < 256 := Nat.lt_succ_of_le Nat.and_le_right

/-! ## The claims -/

/-- C1: for every input pixel, `transform_pixel` computes exactly the
spec's three exclusion formulas (red cross-mixed with green, green and
blue self-mixed) in exact integer arithmetic with truncating division,
clamps each result to `[0,255]`, and repacks as
`(red' << 16) | (green' << 8) | blue'` with the top byte zero regardless
of the input's fourth byte. -/
theorem transform_pixel_matches_spec_formula (p : Nat) :
    transform_pixel p =
      ((clamp255 (ref_red (redOf p) (greenOf p))).toNat <<< 16) |||
        ((clamp255 (ref_green (greenOf p))).toNat <<< 8) |||
        (clamp255 (ref_blue (blueOf p))).toNat ∧
      transform_pixel p < 2 ^ 24 := by
  have hr := redOf_lt p
  have hg := greenOf_lt p
  have hb := blueOf_lt p
  have e1 : gate_channel (red_u32 (redOf p) (greenOf p))
      = (clamp255 (ref_red (redOf p) (greenOf p))).toNat := by
    unfold gate_channel
    rw [(red_bridge _ _ hr hg).1]
  have e2 : gate_channel (green_u32 (greenOf p))
      = (clamp255 (ref_green (greenOf p))).toNat := by
    unfold gate_channel
    rw [green_u32_eq_red_u32, ref_green_eq_ref_red, (red_bridge _ _ hg hg).1]
  have e3 : gate_channel (blue_u32 (blueOf p))
      = (clamp255 (ref_blue (blueOf p))).toNat := by
    unfold gate_channel
    rw [blue_u32_eq_red_u32, ref_blue_eq_ref_red, (red_bridge _ _ hb hb).1]
  exact ⟨by rw [transform_pixel, e1, e2, e3], transform_pixel_lt p⟩

/-- C2: for byte channel values, the `guint32`-wraparound evaluation of
each channel formula, reinterpreted as a signed 32-bit value and gated,
bit-matches the exact integer formula with truncating division followed
by clamping to `[0,255]`. -/
theorem channel_arith_bitmatch (red green blue : Nat)
    (hr : red ≤ 255) (hg : green ≤ 255) (hb : blue ≤ 255) :
    gate_int (toSigned32 (red_u32 red green)) 0 255 = clamp255 (ref_red red green) ∧
      gate_int (toSigned32 (green_u32 green)) 0 255 = clamp255 (ref_green green) ∧
      gate_int (toSigned32 (blue_u32 blue)) 0 255 = clamp255 (ref_blue blue) := by
  refine ⟨(red_bridge _ _ (by omega) (by omega)).1, ?_, ?_⟩
  · rw [green_u32_eq_red_u32, ref_green_eq_ref_red]
    exact (red_bridge _ _ (by omega) (by omega)).1
  · rw [blue_u32_eq_red_u32, ref_blue_eq_ref_red]
    exact (red_bridge _ _ (by omega) (by omega)).1

/-- Witness for C2 at `red = 200`, `green = 100`, `blue = 30`. -/
theorem channel_arith_bitmatch_witness :
    ((200 : Nat) ≤ 255 ∧ (100 : Nat) ≤ 255 ∧ (30 : Nat) ≤ 255) ∧
      (gate_int (toSigned32 (red_u32 200 100)) 0 255 = clamp255 (ref_red 200 100) ∧
        gate_int (toSigned32 (green_u32 100)) 0 255 = clamp255 (ref_green 100) ∧
        gate_int (toSigned32 (blue_u32 30)) 0 255 = clamp255 (ref_blue 30)) :=
  ⟨by decide, channel_arith_bitmatch 200 100 30 (by decide) (by decide) (by decide)⟩

/-- C3: every pixel of the output frame produced by the chain function
(with the negotiated area matching the buffer) has its red, green and
blue channels in `[0,255]`; indeed the whole word fits in 24 bits. -/
theorem chain_output_channels_bounded (filter : Gstexclusion) (in_buf : List Nat)
    (h : filter.width * filter.height = (in_buf.length : Int)) :
    ∀ q ∈ (chain_mem filter in_buf).2,
      redOf q ≤ 255 ∧ greenOf q ≤ 255 ∧ blueOf q ≤ 255 ∧ q < 2 ^ 24 := by
  intro q hq
  rw [chain_mem_eq filter in_buf h] at hq
  simp only [List.mem_map] at hq
  obtain ⟨a, _, rfl⟩ := hq
  exact ⟨Nat.and_le_right, Nat.and_le_right, Nat.and_le_right, transform_pixel_lt a⟩

/-- Witness for C3 on a one-pixel frame. -/
theorem chain_output_channels_bounded_witness :
    ((⟨false, 1, 1⟩ : Gstexclusion).width * (⟨false, 1, 1⟩ : Gstexclusion).height
        = (([4294967295] : List Nat).length : Int)) ∧
      (redOf 0 ≤ 255 ∧ greenOf 0 ≤ 255 ∧ blueOf 0 ≤ 255 ∧ (0 : Nat) < 2 ^ 24) :=
  ⟨by decide,
    chain_output_channels_bounded ⟨false, 1, 1⟩ [4294967295] (by decide) 0 (by decide)⟩

/-- C4: the all-255 input pixel clamps to black: the squared term is 36,
the mixed term 371, each channel is `175 - 407 = -232` before the gate,
and the output word is 0 — for both the 24-bit and the full 32-bit
(fourth byte set) encodings of the input. -/
theorem white_input_yields_black :
    transform_pixel 16777215 = 0 ∧ transform_pixel 4294967295 = 0 ∧
      ((175 - 255 : Int) * (175 - 255)).tdiv 175 = 36 ∧
      ((255 : Int) * 255).tdiv 175 = 371 ∧
      ref_red 255 255 = -232 ∧ ref_green 255 = -232 ∧ ref_blue 255 = -232 ∧
      clamp255 (-232) = 0 := by
  decide

/-- C5: the chain function is deterministic — identical input buffers
and identical negotiated width/height (the `silent` flag may differ)
produce identical outputs. -/
theorem chain_deterministic (f1 f2 : Gstexclusion) (b1 b2 : List Nat)
    (hw : f1.width = f2.width) (hh : f1.height = f2.height) (hb : b1 = b2) :
    gst_exclusion_chain f1 b1 = gst_exclusion_chain f2 b2 := by
  subst hb
  simp only [gst_exclusion_chain, chain_mem, hw, hh]

/-- Witness for C5: two invocations differing only in `silent`. -/
theorem chain_deterministic_witness :
    gst_exclusion_chain ⟨true, 2, 1⟩ [5, 6] = gst_exclusion_chain ⟨false, 2, 1⟩ [5, 6] :=
  chain_deterministic ⟨true, 2, 1⟩ ⟨false, 2, 1⟩ [5, 6] [5, 6] rfl rfl rfl

/-- C6: pixels are processed independently — the output frame is the
pointwise `transform_pixel` map of the input frame, and output pixel `i`
is `transform_pixel` of input pixel `i` alone. -/
theorem chain_pointwise (filter : Gstexclusion) (in_buf : List Nat)
    (h : filter.width * filter.height = (in_buf.length : Int)) :
    (chain_mem filter in_buf).2 = in_buf.map transform_pixel ∧
      ∀ i : Nat, ((chain_mem filter in_buf).2)[i]? = (in_buf[i]?).map transform_pixel := by
  rw [chain_mem_eq filter in_buf h]
  exact ⟨rfl, fun i => List.getElem?_map ..⟩

/-- Witness for C6 on a two-pixel frame. -/
theorem chain_pointwise_witness :
    (chain_mem ⟨false, 2, 1⟩ [16777215, 0]).2 = [16777215, 0].map transform_pixel ∧
      ∀ i : Nat, ((chain_mem ⟨false, 2, 1⟩ [16777215, 0]).2)[i]?
        = (([16777215, 0] : List Nat)[i]?).map transform_pixel :=
  chain_pointwise ⟨false, 2, 1⟩ [16777215, 0] (by decide)

/-- C7: the chain leaves the input buffer byte-for-byte unmodified (the
loop writes only into the freshly copied output region) and the output
frame it hands onward has the input's pixel count. -/
theorem chain_preserves_input (filter : Gstexclusion) (in_buf : List Nat)
    (h : filter.width * filter.height = (in_buf.length : Int)) :
    (chain_mem filter in_buf).1 = in_buf ∧
      (chain_mem filter in_buf).2.length = in_buf.length := by
  rw [chain_mem_eq filter in_buf h]
  exact ⟨rfl, by simp⟩

/-- Witness for C7 on a two-pixel frame. -/
theorem chain_preserves_input_witness :
    (chain_mem ⟨false, 1, 2⟩ [7, 4278190080]).1 = [7, 4278190080] ∧
      (chain_mem ⟨false, 1, 2⟩ [7, 4278190080]).2.length = ([7, 4278190080] : List Nat).length :=
  chain_preserves_input ⟨false, 1, 2⟩ [7, 4278190080] (by decide)

/-- C8 (counterexample): invoked in the initial, never-negotiated state,
the chain does NOT fail — it returns `Except.ok` with the input frame
passed through unchanged (width and height default to 0, so the loop
body never runs); no `UnconfiguredError` path exists in the code. -/
theorem chain_unconfigured_is_ok :
    gst_exclusion_chain gst_exclusion_initState [16777215] = Except.ok [16777215] := rfl

/-- C8 (amended): frame processing invoked before any format negotiation
succeeds, performing zero transform iterations and pushing an unmodified
copy of the input frame; no error is surfaced. -/
theorem chain_unconfigured_passthrough (in_buf : List Nat) :
    gst_exclusion_chain gst_exclusion_initState in_buf = Except.ok in_buf := by
  simp only [gst_exclusion_chain, chain_mem, gst_exclusion_initState, transform]
  norm_num [transformGo_zero, List.drop_left]

/-- C9: the signed pre-clamp value of each channel formula never exceeds
`factor = 175` on byte inputs, so the upper clamp to 255 in `gate_int`
is never the binding bound and every gated output channel lies in
`[0,175]`. -/
theorem preclamp_le_factor (red green blue : Nat)
    (hr : red ≤ 255) (hg : green ≤ 255) (hb : blue ≤ 255) :
    toSigned32 (red_u32 red green) ≤ 175 ∧ gate_channel (red_u32 red green) ≤ 175 ∧
      toSigned32 (green_u32 green) ≤ 175 ∧ gate_channel (green_u32 green) ≤ 175 ∧
      toSigned32 (blue_u32 blue) ≤ 175 ∧ gate_channel (blue_u32 blue) ≤ 175 := by
  have h1 := (red_bridge red green (by omega) (by omega)).2.2
  have h2 : toSigned32 (green_u32 green) ≤ 175 := by
    rw [green_u32_eq_red_u32]
    exact (red_bridge green green (by omega) (by omega)).2.2
  have h3 : toSigned32 (blue_u32 blue) ≤ 175 := by
    rw [blue_u32_eq_red_u32]
    exact (red_bridge blue blue (by omega) (by omega)).2.2
  exact ⟨h1, gate_channel_le_of _ h1, h2, gate_channel_le_of _ h2, h3, gate_channel_le_of _ h3⟩

/-- Witness for C9 at `red = 0`, `green = 255`, `blue = 128`. -/
theorem preclamp_le_factor_witness :
    ((0 : Nat) ≤ 255 ∧ (255 : Nat) ≤ 255 ∧ (128 : Nat) ≤ 255) ∧
      (toSigned32 (red_u32 0 255) ≤ 175 ∧ gate_channel (red_u32 0 255) ≤ 175 ∧
        toSigned32 (green_u32 255) ≤ 175 ∧ gate_channel (green_u32 255) ≤ 175 ∧
        toSigned32 (blue_u32 128) ≤ 175 ∧ gate_channel (blue_u32 128) ≤ 175) :=
  ⟨by decide, preclamp_le_factor 0 255 128 (by decide) (by decide) (by decide)⟩

/-- C10: when `width * height` is zero or negative, `transform` performs
no iterations and writes nothing, and the chain returns an output frame
that is an unmodified copy of the input instead of reporting any
error. -/
theorem nonpos_area_passthrough (filter : Gstexclusion) (in_buf mem : List Nat) (s d : Nat)
    (h : filter.width * filter.height ≤ 0) :
    transform mem s d (filter.width * filter.height) = mem ∧
      gst_exclusion_chain filter in_buf = Except.ok in_buf := by
  have hto : (filter.width * filter.height).toNat = 0 :=
    Int.toNat_of_nonpos h
  constructor
  · rw [transform, hto, transformGo_zero]
  · simp only [gst_exclusion_chain, chain_mem, transform, hto, transformGo_zero,
      List.drop_left]

/-- Witness for C10 with `width = -3`, `height = 2`. -/
theorem nonpos_area_passthrough_witness :
    ((⟨false, -3, 2⟩ : Gstexclusion).width * (⟨false, -3, 2⟩ : Gstexclusion).height ≤ 0) ∧
      (transform [9, 9] 0 1 ((⟨false, -3, 2⟩ : Gstexclusion).width
          * (⟨false, -3, 2⟩ : Gstexclusion).height) = [9, 9] ∧
        gst_exclusion_chain ⟨false, -3, 2⟩ [8] = Except.ok [8]) :=
  ⟨by decide, nonpos_area_passthrough ⟨false, -3, 2⟩ [8] [9, 9] 0 1 (by decide)⟩

end Gst
